import Mathlib

/-!
Verification development for the newsGaming ingestion-and-extraction pipeline.

The definitions below are a shallow embedding of the JavaScript source:
the `NewsController` methods `categorizeNews`, `fetchNews`, `getLatestNews`,
`getNewsByDate` and `parseArticle`.  Timestamps are modelled as natural
numbers (milliseconds).  The MongoDB document store is modelled as a
`List Article`; the memory-cache / redis cache as an association list from
string keys to values.
-/

set_option autoImplicit false

namespace NewsGaming

/-- Persisted news record (the `News` mongoose model: title, description,
link, pubDate, image, author, category, source). `pubDate` is in ms. -/
structure Article where
  title : String
  description : String
  link : String
  pubDate : Nat
  image : String
  author : String
  category : String
  source : String
deriving DecidableEq, Repr

/-- State of the ingestion loop in `fetchNews`: the document store plus the
`currentCount` counter initialised from `countDocuments()`. -/
structure IngestState where
  store : List Article
  tracked : Nat
deriving DecidableEq, Repr

/-- Embeds `News.findOne().sort({ pubDate: 1 })`: the first record (in
natural order) attaining the minimal `pubDate`, or `none` on an empty store. -/
def findOldest : List Article → Option Article
  | [] => none
  | a :: rest =>
    match findOldest rest with
    | none => some a
    | some b => if a.pubDate ≤ b.pubDate then some a else some b

/-- Embeds `News.deleteOne({ _id: oldest._id })` after the `findOldest`
query: removes the first record attaining the minimal `pubDate` (no-op on an
empty store, matching the `if (oldest)` guard). -/
def evictOldest : List Article → List Article
  | [] => []
  | a :: rest =>
    match findOldest rest with
    | none => rest
    | some b => if a.pubDate ≤ b.pubDate then rest else a :: evictOldest rest

/-- Embeds `News.updateOne({ link: item.link }, { $set: item })`: overwrite
the first record whose `link` equals the item's with the item's fields. -/
def updateFirst : List Article → Article → List Article
  | [], _ => []
  | a :: rest, item =>
    if a.link == item.link then item :: rest else a :: updateFirst rest item

/-- The conditional eviction at the top of the `fetchNews` loop body:
`if (currentCount >= MAX_NEWS_LIMIT) { ...delete oldest... }`. -/
def evictStep (max : Nat) (st : IngestState) : List Article :=
  if st.tracked ≥ max then evictOldest st.store else st.store

/-- One iteration of the `fetchNews` persistence loop in the variants that
declare `let currentCount` (part_004, newsController.js): conditional
eviction, then `findOne({ link })` and either `create` (append) or
`updateOne`; `currentCount++` runs on every iteration. -/
def processOne (max : Nat) (st : IngestState) (item : Article) : IngestState :=
  match (evictStep max st).find? (fun a => a.link == item.link) with
  | some _ => { store := updateFirst (evictStep max st) item, tracked := st.tracked + 1 }
  | none => { store := evictStep max st ++ [item], tracked := st.tracked + 1 }

/-- The whole persistence phase of `fetchNews` in the incrementing variants:
`currentCount` is read from `countDocuments()` and the candidate items are
processed in order. -/
def fetchNewsIngest (max : Nat) (store : List Article) (items : List Article) : IngestState :=
  items.foldl (processOne max) { store := store, tracked := store.length }

/-- One iteration of the `fetchNews` persistence loop in the part_005
variant: there `const currentCount = await News.countDocuments()` is read
once before the loop and never incremented, so every iteration's eviction
guard compares the same run-initial count `count0` against the ceiling. -/
def processOneConst (max count0 : Nat) (store : List Article) (item : Article) : List Article :=
  match (if count0 ≥ max then evictOldest store else store).find?
      (fun a => a.link == item.link) with
  | some _ => updateFirst (if count0 ≥ max then evictOldest store else store) item
  | none => (if count0 ≥ max then evictOldest store else store) ++ [item]

/-- The whole persistence phase of the part_005 `fetchNews`: the constant
`currentCount` is the store's record count at the start of the run. -/
def fetchNewsIngestConst (max : Nat) (store : List Article) (items : List Article) :
    List Article :=
  items.foldl (processOneConst max store.length) store

/-- Uniqueness of the `link` natural key over the store (the schema's
`unique: true` index on `link`). -/
def linksNodup (l : List Article) : Prop :=
  (l.map Article.link).Nodup

/-- Whether the first character list is an initial segment of the second. -/
def startsWithChars : List Char → List Char → Bool
  | [], _ => true
  | _ :: _, [] => false
  | a :: as, b :: bs => a == b && startsWithChars as bs

/-- Whether the second character list occurs contiguously in the first. -/
def hasSubChars : List Char → List Char → Bool
  | [], needle => needle.isEmpty
  | b :: bs, needle => startsWithChars needle (b :: bs) || hasSubChars bs needle

/-- JavaScript `String.prototype.includes` (substring containment). -/
def includes (hay needle : String) : Bool :=
  hasSubChars hay.toList needle.toList

/-- JavaScript `String.prototype.toLowerCase` as used here: lowercase every
character (ASCII case folding, which covers the lowercase keyword table). -/
def jsToLower (s : String) : String :=
  String.mk (s.data.map Char.toLower)

/-- Embeds `categorizeNews(item)` from the source: lowercase the title and
the `contentSnippet`, then an if-chain where each category tests the English
and Russian keyword against the title but only the English keyword against
the content; the fall-through result is `update`. -/
def categorizeNews (title content : String) : String :=
  let t := jsToLower title
  let c := jsToLower content
  if includes t "rumor" || includes t "слух" || includes c "rumor" then "rumors"
  else if includes t "announc" || includes t "анонс" || includes c "announc" then "soon"
  else if includes t "poll" || includes t "опрос" || includes c "poll" then "polls"
  else if includes t "recommend" || includes t "рекоменд" || includes c "recommend" then "recommendations"
  else "update"

/-- Modelled from the spec sentence behind claim C3 (for comparison with
`categorizeNews`): a case-insensitive bilingual substring match over the
title first, then over the description, title taking priority. -/
def categorizeNewsClaim (title description : String) : String :=
  let t := jsToLower title
  let d := jsToLower description
  if includes t "rumor" || includes t "слух" then "rumors"
  else if includes t "announc" || includes t "анонс" then "soon"
  else if includes t "poll" || includes t "опрос" then "polls"
  else if includes t "recommend" || includes t "рекоменд" then "recommendations"
  else if includes d "rumor" || includes d "слух" then "rumors"
  else if includes d "announc" || includes d "анонс" then "soon"
  else if includes d "poll" || includes d "опрос" then "polls"
  else if includes d "recommend" || includes d "рекоменд" then "recommendations"
  else "update"

/-- The category keyword table in source order: English keyword, Russian
keyword, category label. -/
def catRules : List (String × String × String) :=
  [("rumor", "слух", "rumors"),
   ("announc", "анонс", "soon"),
   ("poll", "опрос", "polls"),
   ("recommend", "рекоменд", "recommendations")]

/-- First-match reformulation of the amended claim C3: the first rule whose
English keyword occurs in the lowercased title or content, or whose Russian
keyword occurs in the lowercased title, decides the category. -/
def categorizeNewsAmended (title content : String) : String :=
  let t := jsToLower title
  let c := jsToLower content
  match catRules.find? (fun r => includes t r.1 || includes t r.2.1 || includes c r.1) with
  | some r => r.2.2
  | none => "update"

/- ## Query model (`getLatestNews`) -/

/-- Query parameters of `getLatestNews` after the router: `page`, `limit`,
optional `category`, optional `date` (a calendar day index), optional
`from`/`to` bounds (ms), and the geoip-derived EU flag. -/
structure NewsQuery where
  page : Nat
  limit : Nat
  category : Option String
  date : Option Nat
  fromQ : Option Nat
  toQ : Option Nat
  isEU : Bool
deriving DecidableEq, Repr

/-- Millisecond timestamp of `00:00:00.000` of calendar day `d`
(`start.setHours(0,0,0,0)`). -/
def dayStart (d : Nat) : Nat := d * 86400000

/-- Millisecond timestamp of `23:59:59.999` of calendar day `d`
(`end.setHours(23,59,59,999)`). -/
def dayEnd (d : Nat) : Nat := d * 86400000 + 86399999

/-- The `pubDate` part of the Mongo query built by `getLatestNews`:
`if (date) {...day range...} else if (from || to) {...}`; the result is an
optional `($gte, $lte)` pair. -/
def pubDateRange (date fromQ toQ : Option Nat) : Option (Option Nat × Option Nat) :=
  match date with
  | some d => some (some (dayStart d), some (dayEnd d))
  | none => if fromQ.isSome || toQ.isSome then some (fromQ, toQ) else none

/-- Evaluates an optional `($gte, $lte)` range against a `pubDate` value. -/
def matchesRange (r : Option (Option Nat × Option Nat)) (p : Nat) : Bool :=
  match r with
  | none => true
  | some (g, l) =>
    (match g with | none => true | some g' => decide (g' ≤ p)) &&
    (match l with | none => true | some l' => decide (p ≤ l'))

/-- Sources hidden from non-EU requesters: `$nin: ['polygon', 'gamerant',
'thegamer']`. -/
def euExcluded : List String := ["polygon", "gamerant", "thegamer"]

/-- Whether an article satisfies the Mongo query built by `getLatestNews`
for the given parameters. -/
def matchesQuery (q : NewsQuery) (a : Article) : Bool :=
  (match q.category with | none => true | some c => a.category == c) &&
  matchesRange (pubDateRange q.date q.fromQ q.toQ) a.pubDate &&
  (q.isEU || !(euExcluded.contains a.source))

/-- `sort({ pubDate: -1 })`: stable sort by descending `pubDate`. -/
def sortByPubDateDesc (l : List Article) : List Article :=
  l.mergeSort (fun a b => Nat.ble b.pubDate a.pubDate)

/-- Pagination envelope of a list response. -/
structure Pagina where
  current : Nat
  total : Nat
  hasMore : Bool
deriving DecidableEq, Repr

/-- The `{success, data, pagination}` body returned by `getLatestNews`. -/
structure ListResp where
  success : Bool
  data : List Article
  pagina : Pagina
deriving DecidableEq, Repr

/-- The cache-miss path of `getLatestNews`: `find(query).sort({pubDate:-1})
.skip((page-1)*limit).limit(limit)`, `countDocuments(query)`, then the
response `{success, data, pagination:{current, total, hasMore: page*limit <
total}}`. -/
def getLatestNewsMiss (store : List Article) (q : NewsQuery) : ListResp :=
  { success := true
    data := ((sortByPubDateDesc (store.filter (matchesQuery q))).drop
              ((q.page - 1) * q.limit)).take q.limit
    pagina := { current := q.page
                total := (store.filter (matchesQuery q)).length
                hasMore := decide (q.page * q.limit < (store.filter (matchesQuery q)).length) } }

/- ## Cache model -/

/-- A key-value cache (memory-cache or redis) as an association list. -/
abbrev Cache (V : Type) : Type := List (String × V)

/-- `cache.clear()` from the memory-cache variant of `fetchNews`. -/
def cacheClear {V : Type} (_ : Cache V) : Cache V := []

/-- Whether a string starts with the given literal (the `news_*` glob of
`redisClient.keys`, and JavaScript `String.prototype.startsWith`). -/
def strStartsWith (s pre : String) : Bool :=
  startsWithChars pre.toList s.toList

/-- `redisClient.keys('news_*')`: all cache keys matching the glob, i.e.
starting with `news_`. -/
def newsKeys {V : Type} (c : Cache V) : List String :=
  (c.map Prod.fst).filter (fun k => strStartsWith k "news_")

/-- `redisClient.del(key)`: drop every entry stored under the key. -/
def redisDel {V : Type} (c : Cache V) (k : String) : Cache V :=
  c.filter (fun kv => !(kv.1 == k))

/-- The redis variant of the `fetchNews` invalidation:
`redisClient.keys('news_*').then(keys => keys.forEach(key =>
redisClient.del(key)))`. -/
def invalidateNewsKeys {V : Type} (c : Cache V) : Cache V :=
  (newsKeys c).foldl redisDel c

/- ## `getNewsByDate` -/

/-- HTTP response body of `getNewsByDate` (status, `success`, `data`, and
the optional `message` of the 404 body). -/
structure DateResp where
  status : Nat
  success : Bool
  data : List Article
  message : Option String
deriving DecidableEq, Repr

/-- The day filter of `getNewsByDate`: `pubDate: { $gte: start, $lte: end }`
for calendar day `d`. -/
def inDay (d : Nat) (a : Article) : Bool :=
  decide (dayStart d ≤ a.pubDate) && decide (a.pubDate ≤ dayEnd d)

/-- The fixed 404 body `{ success: false, message: 'No news found' }`. -/
def noNewsResp : DateResp :=
  { status := 404, success := false, data := [], message := some "No news found" }

/-- The cache-less variant of `getNewsByDate`: query the day range sorted by
`pubDate` descending; 404 with `No news found` when empty, else a success
envelope. -/
def getNewsByDateSimple (store : List Article) (d : Nat) : DateResp :=
  if (sortByPubDateDesc (store.filter (inDay d))).isEmpty then noNewsResp
  else { status := 200, success := true,
         data := sortByPubDateDesc (store.filter (inDay d)), message := none }

/-- The redis-cached variant of `getNewsByDate`: look up `date_${date}`; on
a hit return the cached body unchanged; on a miss query the day range, 404
without caching when empty, else cache and return the success envelope.
Returns the response together with the cache after the call. -/
def getNewsByDateRedis (c : Cache DateResp) (store : List Article) (d : Nat) :
    DateResp × Cache DateResp :=
  match c.find? (fun kv => kv.1 == "date_" ++ toString d) with
  | some kv => (kv.2, c)
  | none =>
    if (sortByPubDateDesc (store.filter (inDay d))).isEmpty then (noNewsResp, c)
    else ({ status := 200, success := true,
            data := sortByPubDateDesc (store.filter (inDay d)), message := none },
          c ++ [("date_" ++ toString d,
                 { status := 200, success := true,
                   data := sortByPubDateDesc (store.filter (inDay d)), message := none })])

/- ## `parseArticle` content-block extraction -/

/-- Kind of one extracted content block. -/
inductive BlockType where
  | text
  | html
deriving DecidableEq, Repr

/-- One extracted content block `{ type, content }`. -/
structure ContentBlock where
  type : BlockType
  content : String
deriving DecidableEq, Repr

/-- Tag classification of a matched element, as far as the loop in
`parseArticle` distinguishes them (`element.is('p')`,
`element.is('table,h2,h3,ol,ul,video')`, anything else). -/
inductive ETag where
  | p
  | table
  | h2
  | h3
  | ol
  | ul
  | video
  | other
deriving DecidableEq, Repr

/-- A matched DOM element as seen by the extraction loop: its trimmed text,
its tag class, whether `closest('table')` is non-empty, whether it has (or
an ancestor has) one of the ignored classes, and its serialized markup. -/
structure Elem where
  text : String
  tag : ETag
  inTable : Bool
  ignoredClass : Bool
  markup : String
deriving DecidableEq, Repr

/-- The boilerplate strings skipped for `p` elements (`ignoreTexts`). -/
def ignoreTexts : List String :=
  ["The biggest gaming news, reviews and hardware deals",
   "Keep up to date with the most important stories and the best deals, as picked by the PC Gamer team",
   "Please enable JavaScript to see our live coverage of this event.",
   "You must confirm your public display name before commenting",
   "Please logout and then login again, you will then be prompted to enter your display name."]

/-- Tags whose elements flush the running text buffer and emit an `html`
block (`element.is('table,h2,h3,ol,ul,video')`). -/
def isFlushTag : ETag → Bool
  | .table | .h2 | .h3 | .ol | .ul | .video => true
  | _ => false

/-- One iteration of `elements.each` in `parseArticle`, threading the
accumulated blocks and the running text buffer. -/
def parseStep (acc : List ContentBlock × String) (el : Elem) : List ContentBlock × String :=
  let (parts, cur) := acc
  if el.text == "" then (parts, cur)
  else if el.ignoredClass || (el.tag == ETag.p && ignoreTexts.contains el.text) then (parts, cur)
  else if el.tag == ETag.p && !el.inTable then (parts, cur ++ el.text ++ "\n\n")
  else if isFlushTag el.tag then
    let parts1 := if cur == "" then parts else parts ++ [⟨BlockType.text, cur.trim⟩]
    (parts1 ++ [⟨BlockType.html, el.markup⟩], "")
  else (parts, cur)

/-- Blocks accumulated by the loop, after the final
`if (currentText) contentParts.push(...)` flush. -/
def rawBlocks (els : List Elem) : List ContentBlock :=
  let (parts, cur) := els.foldl parseStep ([], "")
  if cur == "" then parts else parts ++ [⟨BlockType.text, cur.trim⟩]

/-- End of `parseArticle`: the accumulated blocks, or the single
`Content missing.` text block when none were produced. -/
def parseArticleBlocks (els : List Elem) : List ContentBlock :=
  if (rawBlocks els).isEmpty then [⟨BlockType.text, "Content missing."⟩]
  else rawBlocks els

/- ## Feed item validation (`fetchNews` filter) -/

/-- A raw feed item as delivered by the RSS parser, with the fields the
validation filter inspects. -/
structure RawItem where
  title : Option String
  link : Option String
  pubDate : Option String
  isoDate : Option String
deriving DecidableEq, Repr

/-- JavaScript truthiness of an optional string field (absent and empty are
falsy). -/
def jsTruthy : Option String → Bool
  | none => false
  | some s => !(s == "")

/-- The validation predicate `item.title && item.link && (item.pubDate ||
item.isoDate)` of `fetchNews`. -/
def keepItem (i : RawItem) : Bool :=
  jsTruthy i.title && jsTruthy i.link && (jsTruthy i.pubDate || jsTruthy i.isoDate)

/-- `feed.items.filter(...)`: the candidates surviving validation. -/
def filterItems (items : List RawItem) : List RawItem :=
  items.filter keepItem

/- ## Concrete fixtures for counterexamples and witnesses -/

/-- A stored article with the oldest `pubDate` in the fixtures. -/
def oldArt : Article :=
  { title := "old story", description := "d0", link := "https://ex.com/old",
    pubDate := 0, image := "i", author := "a", category := "update", source := "ign" }

/-- The same `link` as `oldArt` with refreshed mutable fields. -/
def oldArt2 : Article :=
  { title := "old story refreshed", description := "d1", link := "https://ex.com/old",
    pubDate := 5, image := "i2", author := "a2", category := "update", source := "ign" }

/-- A freshly written article, newer than everything cached. -/
def newArt : Article :=
  { title := "new story", description := "d2", link := "https://ex.com/new",
    pubDate := 100, image := "i", author := "a", category := "update", source := "ign" }

/-- A second fresh article under a third distinct link. -/
def newArt2 : Article :=
  { title := "newer story", description := "d3", link := "https://ex.com/new2",
    pubDate := 200, image := "i", author := "a", category := "update", source := "ign" }

/-- A cached 200 response for day 0 holding only the old article. -/
def staleResp : DateResp :=
  { status := 200, success := true, data := [oldArt], message := none }

/- ## Helper lemmas -/

theorem findOldest_mem {l : List Article} {o : Article} (h : findOldest l = some o) : o ∈ l := by
  induction l with
  | nil => simp [findOldest] at h
  | cons a rest ih =>
    rw [findOldest] at h
    cases hr : findOldest rest with
    | none => rw [hr] at h; simp at h; simp [h]
    | some b =>
      rw [hr] at h
      by_cases hab : a.pubDate ≤ b.pubDate
      · simp [hab] at h; simp [h]
      · simp [hab] at h
        exact List.mem_cons_of_mem a (ih (h ▸ hr))

theorem findOldest_isSome {l : List Article} (h : l ≠ []) : ∃ o, findOldest l = some o := by
  cases l with
  | nil => exact absurd rfl h
  | cons a rest =>
    rw [findOldest]
    cases findOldest rest with
    | none => exact ⟨a, rfl⟩
    | some b =>
      by_cases hab : a.pubDate ≤ b.pubDate
      · exact ⟨a, by simp [hab]⟩
      · exact ⟨b, by simp [hab]⟩

theorem findOldest_none {l : List Article} (h : findOldest l = none) : l = [] := by
  by_contra hne
  obtain ⟨o, ho⟩ := findOldest_isSome hne
  rw [h] at ho
  exact Option.noConfusion ho

theorem findOldest_min : ∀ {l : List Article} {o : Article}, findOldest l = some o →
    ∀ a ∈ l, o.pubDate ≤ a.pubDate := by
  intro l
  induction l with
  | nil => intro o h; simp [findOldest] at h
  | cons a rest ih =>
    intro o h x hx
    rw [findOldest] at h
    cases hr : findOldest rest with
    | none =>
      rw [hr] at h; simp at h
      have hnil := findOldest_none hr
      subst hnil
      simp at hx
      simp [hx, ← h]
    | some b =>
      rw [hr] at h
      by_cases hab : a.pubDate ≤ b.pubDate
      · simp [hab] at h
        subst h
        rcases List.mem_cons.mp hx with hxa | hxr
        · simp [hxa]
        · exact Nat.le_trans hab (ih hr x hxr)
      · simp [hab] at h
        subst h
        rcases List.mem_cons.mp hx with hxa | hxr
        · subst hxa
          exact Nat.le_of_lt (Nat.lt_of_not_le hab)
        · exact ih hr x hxr

theorem evictOldest_sublist (l : List Article) : List.Sublist (evictOldest l) l := by
  induction l with
  | nil => simp [evictOldest]
  | cons a rest ih =>
    rw [evictOldest]
    cases findOldest rest with
    | none => exact (List.sublist_cons_self a rest)
    | some b =>
      by_cases hab : a.pubDate ≤ b.pubDate
      · simp [hab]
      · simp [hab]
        exact ih

theorem length_evictOldest {l : List Article} (h : l ≠ []) :
    (evictOldest l).length + 1 = l.length := by
  induction l with
  | nil => exact absurd rfl h
  | cons a rest ih =>
    rw [evictOldest]
    cases hr : findOldest rest with
    | none => simp
    | some b =>
      have hrest : rest ≠ [] := by
        intro hnil
        subst hnil
        simp [findOldest] at hr
      by_cases hab : a.pubDate ≤ b.pubDate
      · simp [hab]
      · simp only [hab, if_false, List.length_cons]
        rw [← ih hrest]

theorem evictOldest_eraseIdx {l : List Article} (h : l ≠ []) :
    ∃ o i, findOldest l = some o ∧ l[i]? = some o ∧ evictOldest l = l.eraseIdx i := by
  induction l with
  | nil => exact absurd rfl h
  | cons a rest ih =>
    cases hr : findOldest rest with
    | none =>
      refine ⟨a, 0, ?_, by simp, ?_⟩
      · rw [findOldest, hr]
      · rw [evictOldest, hr]; simp
    | some b =>
      have hrest : rest ≠ [] := by
        intro hnil
        subst hnil
        simp [findOldest] at hr
      by_cases hab : a.pubDate ≤ b.pubDate
      · refine ⟨a, 0, ?_, by simp, ?_⟩
        · rw [findOldest, hr]; simp [hab]
        · rw [evictOldest, hr]; simp [hab]
      · obtain ⟨o, i, ho, hi, he⟩ := ih hrest
        have hob : o = b := by
          rw [hr] at ho
          exact (Option.some.inj ho).symm
        refine ⟨b, i + 1, ?_, ?_, ?_⟩
        · rw [findOldest, hr]; simp [hab]
        · simpa [← hob] using hi
        · rw [evictOldest, hr]
          simp only [hab, if_false]
          rw [he]
          rfl

theorem length_updateFirst (l : List Article) (item : Article) :
    (updateFirst l item).length = l.length := by
  induction l with
  | nil => rfl
  | cons a rest ih =>
    rw [updateFirst]
    by_cases hl : a.link == item.link
    · simp [hl]
    · simp [hl, ih]

theorem map_link_updateFirst (l : List Article) (item : Article) :
    (updateFirst l item).map Article.link = l.map Article.link := by
  induction l with
  | nil => rfl
  | cons a rest ih =>
    rw [updateFirst]
    by_cases hl : a.link == item.link
    · have : item.link = a.link := (eq_of_beq hl).symm
      simp [hl, this]
    · simp [hl, ih]

theorem find?_updateFirst {l : List Article} {item a : Article}
    (h : l.find? (fun x => x.link == item.link) = some a) :
    (updateFirst l item).find? (fun x => x.link == item.link) = some item := by
  induction l with
  | nil => simp [List.find?] at h
  | cons b rest ih =>
    rw [updateFirst]
    by_cases hl : b.link == item.link
    · simp [hl, List.find?]
    · rw [List.find?] at h
      simp only [hl] at h
      simp only [if_neg (by simp [hl] : ¬(b.link == item.link) = true)]
      rw [List.find?]
      simp only [hl]
      exact ih (by simpa using h)

theorem length_evictStep_le (max : Nat) (st : IngestState) :
    (evictStep max st).length ≤ st.store.length := by
  unfold evictStep
  split
  · exact (evictOldest_sublist st.store).length_le
  · exact Nat.le_refl _

theorem processOne_update_eq (max : Nat) (st : IngestState) (item a : Article)
    (hf : (evictStep max st).find? (fun x => x.link == item.link) = some a) :
    processOne max st item =
      { store := updateFirst (evictStep max st) item, tracked := st.tracked + 1 } := by
  unfold processOne
  rw [hf]

theorem processOne_insert_eq (max : Nat) (st : IngestState) (item : Article)
    (hf : (evictStep max st).find? (fun x => x.link == item.link) = none) :
    processOne max st item =
      { store := evictStep max st ++ [item], tracked := st.tracked + 1 } := by
  unfold processOne
  rw [hf]

theorem processOne_inv (max : Nat) (st : IngestState) (item : Article)
    (hmax : 1 ≤ max) (h1 : st.store.length ≤ max) (h2 : st.store.length ≤ st.tracked) :
    (processOne max st item).store.length ≤ max ∧
    (processOne max st item).store.length ≤ (processOne max st item).tracked := by
  cases hf : (evictStep max st).find? (fun x => x.link == item.link) with
  | some a =>
    rw [processOne_update_eq max st item a hf]
    simp only [length_updateFirst]
    refine ⟨Nat.le_trans (length_evictStep_le max st) h1, ?_⟩
    exact Nat.le_trans (Nat.le_trans (length_evictStep_le max st) h2) (Nat.le_succ _)
  | none =>
    rw [processOne_insert_eq max st item hf]
    simp only [List.length_append, List.length_cons, List.length_nil]
    by_cases htr : st.tracked ≥ max
    · have hstep : evictStep max st = evictOldest st.store := by
        unfold evictStep; simp [htr]
      rw [hstep]
      rcases eq_or_ne st.store [] with hnil | hne
      · rw [hnil]
        simp [evictOldest]
        omega
      · have hlen := length_evictOldest hne
        omega
    · have hstep : evictStep max st = st.store := by
        unfold evictStep; simp [htr]
      rw [hstep]
      omega

theorem foldl_processOne_inv (max : Nat) (hmax : 1 ≤ max) :
    ∀ (items : List Article) (st : IngestState),
      st.store.length ≤ max → st.store.length ≤ st.tracked →
      (items.foldl (processOne max) st).store.length ≤ max ∧
      (items.foldl (processOne max) st).store.length ≤ (items.foldl (processOne max) st).tracked := by
  intro items
  induction items with
  | nil => intro st h1 h2; exact ⟨h1, h2⟩
  | cons i rest ih =>
    intro st h1 h2
    rw [List.foldl_cons]
    obtain ⟨g1, g2⟩ := processOne_inv max st i hmax h1 h2
    exact ih _ g1 g2

theorem processOne_at_ceiling (max : Nat) (st : IngestState) (item : Article)
    (hmax : 1 ≤ max) (hfull : st.store.length = max) (htr : st.store.length ≤ st.tracked)
    (hnew : st.store.find? (fun a => a.link == item.link) = none) :
    ∃ o i, findOldest st.store = some o ∧ st.store[i]? = some o ∧
      (∀ a ∈ st.store, o.pubDate ≤ a.pubDate) ∧
      evictOldest st.store = st.store.eraseIdx i ∧
      (processOne max st item).store = evictOldest st.store ++ [item] := by
  have hne : st.store ≠ [] := by
    intro hnil
    rw [hnil] at hfull
    simp at hfull
    omega
  have hstep : evictStep max st = evictOldest st.store := by
    unfold evictStep
    have : st.tracked ≥ max := by omega
    simp [this]
  obtain ⟨o, i, ho, hi, he⟩ := evictOldest_eraseIdx hne
  refine ⟨o, i, ho, hi, findOldest_min ho, he, ?_⟩
  have hnone : (evictStep max st).find? (fun x => x.link == item.link) = none := by
    rw [List.find?_eq_none] at hnew ⊢
    intro x hx
    rw [hstep] at hx
    exact hnew x ((evictOldest_sublist st.store).subset hx)
  rw [processOne_insert_eq max st item hnone, hstep]

theorem linksNodup_evictStep (max : Nat) (st : IngestState) (h : linksNodup st.store) :
    linksNodup (evictStep max st) := by
  unfold evictStep
  split
  · exact h.sublist ((evictOldest_sublist st.store).map Article.link)
  · exact h

theorem linksNodup_processOne (max : Nat) (st : IngestState) (item : Article)
    (h : linksNodup st.store) : linksNodup (processOne max st item).store := by
  have hstep : linksNodup (evictStep max st) := linksNodup_evictStep max st h
  cases hf : (evictStep max st).find? (fun x => x.link == item.link) with
  | some a =>
    rw [processOne_update_eq max st item a hf]
    unfold linksNodup
    rw [map_link_updateFirst]
    exact hstep
  | none =>
    rw [processOne_insert_eq max st item hf]
    unfold linksNodup
    rw [List.map_append]
    rw [List.nodup_append]
    refine ⟨hstep, List.nodup_singleton _, ?_⟩
    intro x hx hx2
    simp at hx2
    obtain ⟨y, hy, hyl⟩ := List.mem_map.mp hx
    rw [List.find?_eq_none] at hf
    have := hf y hy
    simp at this
    rw [hx2] at hyl
    exact this hyl

theorem filter_link_updateFirst : ∀ {l : List Article} {item a : Article},
    (l.map Article.link).Nodup →
    l.find? (fun x => x.link == item.link) = some a →
    (updateFirst l item).filter (fun x => x.link == item.link) = [item] := by
  intro l
  induction l with
  | nil => intro item a _ h; simp [List.find?] at h
  | cons b rest ih =>
    intro item a hnd h
    by_cases hb : (b.link == item.link) = true
    · rw [updateFirst]
      rw [if_pos hb]
      rw [List.filter_cons]
      have hself : (item.link == item.link) = true := by simp
      rw [if_pos hself]
      have hrest : rest.filter (fun x => x.link == item.link) = [] := by
        rw [List.filter_eq_nil_iff]
        intro x hx
        intro hxl
        have hbl : b.link = item.link := eq_of_beq hb
        have hxl2 : x.link = item.link := eq_of_beq hxl
        have hmem : b.link ∈ rest.map Article.link := by
          rw [hbl, ← hxl2]
          exact List.mem_map_of_mem Article.link hx
        simp [List.nodup_cons] at hnd
        exact hnd.1 _ hx (by rw [hbl, ← hxl2])
      rw [hrest]
    · rw [updateFirst]
      rw [if_neg hb]
      rw [List.filter_cons]
      simp only [hb]
      rw [List.find?] at h
      simp only [hb] at h
      have hnd2 : (rest.map Article.link).Nodup := by
        simp [List.nodup_cons] at hnd
        exact hnd.2
      simp
      exact ih hnd2 (by simpa using h)

theorem processOne_filter_link (max : Nat) (st : IngestState) (item : Article)
    (h : linksNodup st.store) :
    (processOne max st item).store.filter (fun x => x.link == item.link) = [item] := by
  have hstep : linksNodup (evictStep max st) := linksNodup_evictStep max st h
  cases hf : (evictStep max st).find? (fun x => x.link == item.link) with
  | some a =>
    rw [processOne_update_eq max st item a hf]
    exact filter_link_updateFirst hstep hf
  | none =>
    rw [processOne_insert_eq max st item hf]
    rw [List.filter_append]
    have h1 : (evictStep max st).filter (fun x => x.link == item.link) = [] := by
      rw [List.filter_eq_nil_iff]
      rw [List.find?_eq_none] at hf
      exact hf
    rw [h1]
    simp

theorem foldl_redisDel {V : Type} :
    ∀ (ks : List String) (c : Cache V),
      ks.foldl redisDel c = c.filter (fun kv => !(ks.any (fun x => kv.1 == x))) := by
  intro ks
  induction ks with
  | nil =>
    intro c
    simp [List.foldl_nil]
  | cons k rest ih =>
    intro c
    rw [List.foldl_cons, ih]
    unfold redisDel
    rw [List.filter_filter]
    apply List.filter_congr
    intro kv _
    cases h1 : (kv.1 == k) <;> cases h2 : rest.any (fun x => kv.1 == x) <;>
      simp [List.any_cons, h1, h2]

theorem invalidateNewsKeys_eq_filter {V : Type} (c : Cache V) :
    invalidateNewsKeys c = c.filter (fun kv => !(strStartsWith kv.1 "news_")) := by
  unfold invalidateNewsKeys
  rw [foldl_redisDel]
  refine List.filter_congr ?_
  intro kv hkv
  have hmain : ((newsKeys c).any (fun x => kv.1 == x)) = strStartsWith kv.1 "news_" := by
    cases hs : strStartsWith kv.1 "news_"
    · rw [List.any_eq_false]
      intro x hx
      intro hxe
      have hx2 : strStartsWith x "news_" = true := by
        unfold newsKeys at hx
        exact (List.mem_filter.mp hx).2
      rw [eq_of_beq hxe] at hs
      rw [hs] at hx2
      exact Bool.noConfusion hx2
    · rw [List.any_eq_true]
      refine ⟨kv.1, ?_, by simp⟩
      unfold newsKeys
      rw [List.mem_filter]
      exact ⟨List.mem_map_of_mem Prod.fst hkv, hs⟩
  rw [hmain]

/- ## Claim theorems -/

/-- Claim C1, counterexample: in the part_005 variant of `fetchNews`, where
`currentCount` is declared `const` and never incremented, a run starting
below the ceiling never evicts: with ceiling 2 and one stored record, a run
ingesting two new distinct-link candidates ends with 3 stored records, and
the second candidate is processed while the store is at the ceiling with its
link not stored, yet no record is deleted before the insert. -/
theorem fetchNews_capacity_counterexample :
    (fetchNewsIngestConst 2 [oldArt] [newArt, newArt2]).length = 3 ∧
    ¬((fetchNewsIngestConst 2 [oldArt] [newArt, newArt2]).length ≤ 2) ∧
    ([oldArt, newArt].length = 2 ∧
      [oldArt, newArt].find? (fun a => a.link == newArt2.link) = none ∧
      processOneConst 2 1 [oldArt, newArt] newArt2 = [oldArt, newArt, newArt2]) := by
  decide

/-- Claim C1 as amended: in the `fetchNews` variants that increment
`currentCount` per processed item (part_004, newsController.js), with a
positive ceiling and a starting count within it, the stored record count
never exceeds the ceiling, and at the ceiling a candidate whose link is not
yet stored deletes exactly the record with the minimum `pubDate` before the
insert; the part_005 variant reads `currentCount` once per run and never
increments it, so in a run whose initial count is below the ceiling no
iteration ever evicts. -/
theorem fetchNews_capacity_invariant (max : Nat) (hmax : 1 ≤ max) :
    (∀ (store items : List Article), store.length ≤ max →
      (fetchNewsIngest max store items).store.length ≤ max) ∧
    (∀ (st : IngestState) (item : Article),
      st.store.length = max → st.store.length ≤ st.tracked →
      st.store.find? (fun a => a.link == item.link) = none →
      ∃ o i, findOldest st.store = some o ∧ st.store[i]? = some o ∧
        (∀ a ∈ st.store, o.pubDate ≤ a.pubDate) ∧
        evictOldest st.store = st.store.eraseIdx i ∧
        (processOne max st item).store = evictOldest st.store ++ [item] ∧
        (processOne max st item).store.length = max) ∧
    (∀ (count0 : Nat) (store : List Article) (item : Article), count0 < max →
      processOneConst max count0 store item =
        match store.find? (fun a => a.link == item.link) with
        | some _ => updateFirst store item
        | none => store ++ [item]) := by
  refine ⟨?_, ?_, ?_⟩
  · intro store items h
    unfold fetchNewsIngest
    exact (foldl_processOne_inv max hmax items { store := store, tracked := store.length }
      h (Nat.le_refl _)).1
  case refine_3 =>
    intro count0 store item hc
    unfold processOneConst
    simp only [if_neg (Nat.not_le.mpr hc)]
  · intro st item hfull htr hnew
    obtain ⟨o, i, h1, h2, h3, h4, h5⟩ := processOne_at_ceiling max st item hmax hfull htr hnew
    refine ⟨o, i, h1, h2, h3, h4, h5, ?_⟩
    have hne : st.store ≠ [] := by
      intro hnil
      rw [hnil] at hfull
      simp at hfull
      omega
    have hlen := length_evictOldest hne
    rw [h5]
    simp only [List.length_append, List.length_cons, List.length_nil]
    omega

/-- Witness for C1 at a concrete instance: ceiling 1, empty store, two
candidates; the final store length stays within the ceiling. -/
theorem fetchNews_capacity_invariant_witness :
    (fetchNewsIngest 1 [] [oldArt, newArt]).store.length ≤ 1 :=
  (fetchNews_capacity_invariant 1 (by decide)).1 [] [oldArt, newArt] (by decide)

/-- Claim C4, counterexample: processing a candidate whose link already
exists (an update: the store keeps length 1 and holds the overwritten
record) still increments the tracked count from 1 to 2, so the tracked
count is not incremented only on inserts. -/
theorem fetchNews_update_count_counterexample :
    (processOne 10 { store := [oldArt], tracked := 1 } oldArt2).store = [oldArt2] ∧
    (processOne 10 { store := [oldArt], tracked := 1 } oldArt2).tracked = 2 := by
  decide

/-- Claim C4 as amended: a candidate whose link exists in the post-eviction
store overwrites the existing record's fields in place (same store length,
the record under that link becomes the candidate), but the tracked count is
incremented on this update exactly as on an insert. -/
theorem fetchNews_update_overwrites (max : Nat) (st : IngestState) (item a : Article)
    (hf : (evictStep max st).find? (fun x => x.link == item.link) = some a) :
    (processOne max st item).store = updateFirst (evictStep max st) item ∧
    (processOne max st item).store.length = (evictStep max st).length ∧
    (processOne max st item).store.find? (fun x => x.link == item.link) = some item ∧
    (processOne max st item).tracked = st.tracked + 1 := by
  rw [processOne_update_eq max st item a hf]
  exact ⟨rfl, length_updateFirst _ _, find?_updateFirst hf, rfl⟩

/-- Witness for the amended C4 at a concrete update. -/
theorem fetchNews_update_overwrites_witness :
    (processOne 10 { store := [oldArt], tracked := 1 } oldArt2).store.find?
      (fun x => x.link == oldArt2.link) = some oldArt2 :=
  (fetchNews_update_overwrites 10 { store := [oldArt], tracked := 1 } oldArt2 oldArt
    (by decide)).2.2.1

/-- Claim C5: `processOne` preserves uniqueness of the `link` key, and
ingesting two candidates with the same link (in order, from any store state
with unique links) leaves exactly one stored record under that link, equal
to the second candidate. -/
theorem fetchNews_upsert_idempotent :
    (∀ (max : Nat) (st : IngestState) (item : Article), linksNodup st.store →
      linksNodup (processOne max st item).store) ∧
    (∀ (max t : Nat) (s : List Article) (i1 i2 : Article), linksNodup s → i1.link = i2.link →
      ((processOne max (processOne max { store := s, tracked := t } i1) i2).store.filter
        (fun a => a.link == i2.link)) = [i2]) := by
  constructor
  · exact fun max st item h => linksNodup_processOne max st item h
  · intro max t s i1 i2 hnd _
    exact processOne_filter_link max _ i2
      (linksNodup_processOne max { store := s, tracked := t } i1 hnd)

/-- Witness for C5: ingesting two candidates sharing a link into an empty
store yields exactly the second candidate under that link. -/
theorem fetchNews_upsert_idempotent_witness :
    ((processOne 5 (processOne 5 { store := [], tracked := 0 } oldArt) oldArt2).store.filter
      (fun a => a.link == oldArt2.link)) = [oldArt2] :=
  fetchNews_upsert_idempotent.2 5 0 [] oldArt oldArt2 (by simp [linksNodup]) (by rfl)

/-- Claim C2, counterexample: the redis variant of the `fetchNews`
invalidation (`keys('news_*')` then `del`) leaves a `date_` query-result
entry in place, and a subsequent `getNewsByDate` read for that cached day
returns data strictly older than the just-written record. -/
theorem fetchNews_invalidation_counterexample :
    invalidateNewsKeys [("date_0", staleResp)] = [("date_0", staleResp)] ∧
    (getNewsByDateRedis (invalidateNewsKeys [("date_0", staleResp)]) [newArt] 0).1 = staleResp ∧
    ∀ a ∈ staleResp.data, a.pubDate < newArt.pubDate := by
  decide

/-- Claim C2 as amended: the memory-cache variant of the invalidation
removes every cache entry, while the redis variant removes exactly the
entries whose key starts with `news_` (entries under other prefixes, such
as `date_` or `search_`, survive the write). -/
theorem fetchNews_invalidation_amended {V : Type} (c : Cache V) :
    cacheClear c = ([] : Cache V) ∧
    invalidateNewsKeys c = c.filter (fun kv => !(strStartsWith kv.1 "news_")) :=
  ⟨rfl, invalidateNewsKeys_eq_filter c⟩

/-- Claim C10, counterexample: with a cached entry under `date_0`, a date
query whose day range matches zero stored records (the store is empty)
returns the cached 200 success envelope, not the 404 `No news found`
response. -/
theorem getNewsByDate_counterexample :
    ([] : List Article).filter (inDay 0) = [] ∧
    (getNewsByDateRedis [("date_0", staleResp)] [] 0).1.status = 200 ∧
    (getNewsByDateRedis [("date_0", staleResp)] [] 0).1.success = true := by
  decide

/-- Claim C10 as amended: when the day range matches zero stored records,
the cache-less `getNewsByDate` always returns the 404 `No news found` body,
and the redis variant does so whenever its `date_` key is absent from the
cache, leaving the cache unchanged; on a cache hit the cached response is
returned verbatim instead. -/
theorem getNewsByDate_amended (c : Cache DateResp) (store : List Article) (d : Nat)
    (hmiss : c.find? (fun kv => kv.1 == "date_" ++ toString d) = none)
    (hempty : store.filter (inDay d) = []) :
    getNewsByDateSimple store d = noNewsResp ∧
    (getNewsByDateRedis c store d).1 = noNewsResp ∧
    (getNewsByDateRedis c store d).2 = c := by
  have hsorted : sortByPubDateDesc (store.filter (inDay d)) = [] := by
    rw [hempty]
    simp [sortByPubDateDesc]
  refine ⟨?_, ?_, ?_⟩
  · unfold getNewsByDateSimple
    rw [hsorted]
    rfl
  · unfold getNewsByDateRedis
    rw [hmiss, hsorted]
    rfl
  · unfold getNewsByDateRedis
    rw [hmiss, hsorted]
    rfl

/-- Witness for the amended C10: empty cache and empty store produce the
404 body and leave the cache empty. -/
theorem getNewsByDate_amended_witness :
    getNewsByDateSimple [] 0 = noNewsResp ∧
    (getNewsByDateRedis [] [] 0).1 = noNewsResp ∧
    (getNewsByDateRedis [] [] 0).2 = [] :=
  getNewsByDate_amended [] [] 0 (by rfl) (by rfl)

/-- Claim C3, counterexample: an item whose title matches nothing and whose
description (contentSnippet) contains the Russian keyword `слух` is
categorized `update` by the code, while the claimed bilingual
title-then-description match would yield `rumors`; and an item whose title
contains `announc` but whose description contains `rumor` is categorized
`rumors` by the code, while the claimed title priority would yield `soon`. -/
theorem categorizeNews_counterexample :
    (categorizeNews "x" "слух" = "update" ∧ categorizeNewsClaim "x" "слух" = "rumors") ∧
    (categorizeNews "Big announcement" "rumor mill" = "rumors" ∧
      categorizeNewsClaim "Big announcement" "rumor mill" = "soon") := by
  refine ⟨⟨?_, ?_⟩, ?_, ?_⟩ <;> rfl

/-- Claim C3 as amended: `categorizeNews` is the first-match lookup over the
keyword table in order rumors, soon, polls, recommendations, where each rule
matches the English or Russian keyword against the lowercased title but only
the English keyword against the lowercased content snippet; no match yields
`update`. -/
theorem categorizeNews_amended_correct (title content : String) :
    categorizeNews title content = categorizeNewsAmended title content := by
  unfold categorizeNews categorizeNewsAmended catRules
  simp only [List.find?]
  by_cases h1 : (includes (jsToLower title) "rumor" || includes (jsToLower title) "слух"
      || includes (jsToLower content) "rumor") = true
  · simp [h1]
  · by_cases h2 : (includes (jsToLower title) "announc" || includes (jsToLower title) "анонс"
        || includes (jsToLower content) "announc") = true
    · simp [h1, h2]
    · by_cases h3 : (includes (jsToLower title) "poll" || includes (jsToLower title) "опрос"
          || includes (jsToLower content) "poll") = true
      · simp [h1, h2, h3]
      · by_cases h4 : (includes (jsToLower title) "recommend" || includes (jsToLower title) "рекоменд"
            || includes (jsToLower content) "recommend") = true
        · simp [h1, h2, h3, h4]
        · simp [h1, h2, h3, h4]

/-- Claim C6: the miss-path response of `getLatestNews` has `hasMore` true
iff `page*limit < total`, at most `limit` records of data, `current` equal
to the requested page, and data equal to the descending-`pubDate` slice
after skipping `(page-1)*limit` matching records. -/
theorem getLatestNews_pagina_correct (store : List Article) (q : NewsQuery) :
    (getLatestNewsMiss store q).pagina.hasMore
      = decide (q.page * q.limit < (store.filter (matchesQuery q)).length) ∧
    (getLatestNewsMiss store q).data.length ≤ q.limit ∧
    (getLatestNewsMiss store q).pagina.current = q.page ∧
    (getLatestNewsMiss store q).data
      = ((sortByPubDateDesc (store.filter (matchesQuery q))).drop
          ((q.page - 1) * q.limit)).take q.limit := by
  refine ⟨rfl, ?_, rfl, rfl⟩
  unfold getLatestNewsMiss
  simp only
  rw [List.length_take]
  exact Nat.min_le_left _ _

/-- Claim C7: the extraction loop of `parseArticle` never returns an empty
block list, and when no blocks were produced it returns exactly the single
`text` block with the `Content missing.` placeholder. -/
theorem parseArticle_nonempty (els : List Elem) :
    parseArticleBlocks els ≠ [] ∧
    (rawBlocks els = [] →
      parseArticleBlocks els = [{ type := BlockType.text, content := "Content missing." }]) := by
  constructor
  · unfold parseArticleBlocks
    split
    · simp
    · rename_i h
      simpa [List.isEmpty_iff] using h
  · intro h
    unfold parseArticleBlocks
    rw [h]
    rfl

/-- Witness for C7: an empty element list produces exactly the placeholder
block. -/
theorem parseArticle_nonempty_witness :
    parseArticleBlocks [] = [{ type := BlockType.text, content := "Content missing." }] :=
  (parseArticle_nonempty []).2 (by rfl)

/-- Claim C8: every candidate surviving the `fetchNews` feed filter has a
truthy title, a truthy link and a truthy publish or alternate date; and a
feed of three items where exactly one lacks a link yields exactly two
candidates. -/
theorem fetchNews_drops_invalid :
    (∀ (items : List RawItem) (i : RawItem), i ∈ filterItems items →
      jsTruthy i.title = true ∧ jsTruthy i.link = true ∧
        (jsTruthy i.pubDate = true ∨ jsTruthy i.isoDate = true)) ∧
    (∀ i1 i2 i3 : RawItem, keepItem i1 = true → keepItem i2 = true →
      jsTruthy i3.link = false → (filterItems [i1, i2, i3]).length = 2) := by
  constructor
  · intro items i hi
    unfold filterItems at hi
    have hk : keepItem i = true := (List.mem_filter.mp hi).2
    unfold keepItem at hk
    simp only [Bool.and_eq_true, Bool.or_eq_true] at hk
    exact ⟨hk.1.1, hk.1.2, hk.2⟩
  · intro i1 i2 i3 h1 h2 h3
    have hk3 : keepItem i3 = false := by
      unfold keepItem
      rw [h3]
      simp
    unfold filterItems
    simp [List.filter_cons, h1, h2, hk3]

/-- Witness for C8: a concrete three-item feed with exactly one item missing
its link yields two candidates. -/
theorem fetchNews_drops_invalid_witness :
    (filterItems
      [{ title := some "a", link := some "u1", pubDate := some "d", isoDate := none },
       { title := some "b", link := some "u2", pubDate := none, isoDate := some "i" },
       { title := some "c", link := none, pubDate := some "d", isoDate := none }]).length = 2 :=
  fetchNews_drops_invalid.2 _ _ _ (by decide) (by decide) (by decide)

/-- Claim C9: a `date` parameter constrains `pubDate` to the closed range
from `00:00:00.000` to `23:59:59.999` of that calendar day, and it takes
precedence over any `from`/`to` parameters in the same request. -/
theorem getLatestNews_date_precedence (d p : Nat) (f t : Option Nat) (q : NewsQuery)
    (a : Article) :
    pubDateRange (some d) f t = some (some (dayStart d), some (dayEnd d)) ∧
    (matchesRange (pubDateRange (some d) f t) p = true ↔ dayStart d ≤ p ∧ p ≤ dayEnd d) ∧
    matchesQuery { q with date := some d, fromQ := f, toQ := t } a
      = matchesQuery { q with date := some d, fromQ := none, toQ := none } a := by
  refine ⟨rfl, ?_, rfl⟩
  simp [pubDateRange, matchesRange]

end NewsGaming
